import Mathlib

set_option synthInstance.maxSize 1024
set_option synthInstance.maxHeartbeats 1000000
set_option maxHeartbeats 1000000
set_option maxRecDepth 100000

/- The kernel ignores reducibility attributes; making the Batteries
rational-number operations semireducible only lets concrete parses be
evaluated by `decide`. -/
set_option allowUnsafeReducibility true
attribute [semireducible] Rat.inv Rat.mul Rat.add Rat.sub

deriving instance DecidableEq for Except

/-!
Verification of the `.e2e` container parser in
`src/oct_converter/readers/e2e.py` (class `E2E`).

The development shallowly embeds the parser: Python numbers become
`Nat`/`Int`/`ℚ` (Python's `/` on integers is exact division, `int(...)`
truncates toward zero), Python `dict`s become insertion-ordered
association lists, Python list-item assignment (which wraps negative
indices and raises `IndexError` out of range) becomes `pySet`, and the
fallible parts of the parser return `Except PyErr`.

Floating-point remarks.  The custom 16-bit float decoders compute
`(1 + M / 2**10) * 2**(E - 63)` with `M < 2**10` and `0 ≤ E ≤ 63`;
every such value (a 10-bit significand times an exact power of two in
range) is exactly representable in IEEE double, and each intermediate
step of the Python computation is exact, so the rational model below is
bit-faithful to the source.  The display transform
`256 * image ** (1 / 2.4)` applied to decoded OCT pixels is a strictly
monotone injective map evaluated in floating point; no claim inspects
post-transform pixel values, so decoded slices are modelled as the
matrices of LUT (ufloat16) values before that transform.
-/

/-- Python `int(q)` for a rational `q`: truncation toward zero. -/
def pyint (q : ℚ) : ℤ := if 0 ≤ q then ⌊q⌋ else ⌈q⌉

/-- Insertion-ordered association list, the model of a Python `dict`. -/
abbrev PyDict (κ α : Type) : Type := List (κ × α)

/-- Lookup (`d[k]` / `d.get(k)`): first entry with the given key. -/
def alGet {κ α : Type} [DecidableEq κ] : PyDict κ α → κ → Option α
  | [], _ => none
  | (k', v) :: rest, k => if k' = k then some v else alGet rest k

/-- Assignment `d[k] = v`: update in place if the key exists (keeping its
position, as Python dicts do), else append at the end. -/
def alSet {κ α : Type} [DecidableEq κ] : PyDict κ α → κ → α → PyDict κ α
  | [], k, v => [(k, v)]
  | (k', v') :: rest, k, v =>
      if k' = k then (k, v) :: rest else (k', v') :: alSet rest k v

/-- Keys of an association list, in order. -/
def alKeys {κ α : Type} (d : PyDict κ α) : List κ := d.map Prod.fst

/-- A Python dict never holds two entries with the same key. -/
def NoDupKeys {κ α : Type} (d : PyDict κ α) : Prop := (d.map Prod.fst).Nodup

/-- Python list item assignment `l[i] = v`: a negative index has the
length added once; an index then out of `[0, len)` raises `IndexError`
(modelled as `none`). -/
def pySet {α : Type} (l : List α) (i : ℤ) (v : α) : Option (List α) :=
  let j : ℤ := if i < 0 then i + l.length else i
  if 0 ≤ j ∧ j < (l.length : ℤ) then some (l.set j.toNat v) else none

/-- The low `w` bits of `x`, least significant first.  `toBitsLSB 16 u`
is `"{0:016b}".format(u)[::-1]` for `u < 2 ** 16`, and `toBitsLSB 8 b`
is `bin(b)[2:].zfill(8)[::-1]` for `b < 2 ** 8`. -/
def toBitsLSB : Nat → Nat → List Bool
  | 0, _ => []
  | w + 1, x => decide (x % 2 = 1) :: toBitsLSB w (x / 2)

/-- Python `int(s, 2)` on a bit string written most significant first. -/
def fromBitsMSB (l : List Bool) : Nat :=
  l.foldl (fun a b => 2 * a + (if b then 1 else 0)) 0

/-- Shared tail of both source decoders: from the (already reversed) bit
stream, the first 10 bits are the mantissa `M`, the remaining 6 bits
reversed again are the exponent `E`, and the value is
`(1 + M / 2**10) * 2**(E - 63)`. -/
def ufloatFromBits (bits : List Bool) : ℚ :=
  let mantissa := bits.take 10
  let exponent := (bits.drop 10).reverse
  (1 + (fromBitsMSB mantissa : ℚ) / 2 ^ 10) *
    (2 : ℚ) ^ ((fromBitsMSB exponent : ℤ) - 63)

/-- `E2E.uint16_to_ufloat16` (e2e.py lines 503-525): format the input as
a 16-character binary string, reverse the whole string, then decode. -/
def uint16_to_ufloat16 (u : Nat) : ℚ :=
  ufloatFromBits (toBitsLSB 16 u)

/-- `E2E.read_custom_float` (e2e.py lines 478-501): reverse the 8-bit
binary string of each byte independently, concatenate, then decode. -/
def read_custom_float (b0 b1 : Nat) : ℚ :=
  ufloatFromBits (toBitsLSB 8 b0 ++ toBitsLSB 8 b1)

/-- The reference decode written from the words of spec §4.3: take the
little-endian bytes of the 16-bit value, reverse the bit order within
each byte (bit 0 of byte 0 becomes the most significant bit of the
reversed stream, ...), read the first 10 bits as the mantissa integer
`M`, the remaining 6 bits reversed a second time as the exponent
integer `E`, and return `(1 + M / 2**10) * 2**(E - 63)`. -/
def spec_ufloat16 (u : Nat) : ℚ :=
  let stream := toBitsLSB 8 (u % 256) ++ toBitsLSB 8 (u / 256)
  let M := fromBitsMSB (stream.take 10)
  let E := fromBitsMSB ((stream.drop 10).reverse)
  (1 + (M : ℚ) / 2 ^ 10) * (2 : ℚ) ^ ((E : ℤ) - 63)

theorem toBitsLSB_add (w1 w2 : Nat) :
    ∀ x y : Nat, x < 2 ^ w1 →
      toBitsLSB (w1 + w2) (x + 2 ^ w1 * y) = toBitsLSB w1 x ++ toBitsLSB w2 y := by
  induction w1 with
  | zero =>
      intro x y hx
      interval_cases x
      simp [toBitsLSB]
  | succ n ih =>
      intro x y hx
      have hmod : (x + 2 ^ (n + 1) * y) % 2 = x % 2 := by
        have : x + 2 ^ (n + 1) * y = x + 2 * (2 ^ n * y) := by ring
        rw [this, Nat.add_mul_mod_self_left]
      have hdiv : (x + 2 ^ (n + 1) * y) / 2 = x / 2 + 2 ^ n * y := by
        have : x + 2 ^ (n + 1) * y = x + 2 * (2 ^ n * y) := by ring
        rw [this, Nat.add_mul_div_left _ _ (by norm_num : 0 < 2)]
      have hx2 : x / 2 < 2 ^ n := by
        rw [Nat.div_lt_iff_lt_mul (by norm_num : 0 < 2)]
        calc x < 2 ^ (n + 1) := hx
          _ = 2 ^ n * 2 := by ring
      have hstep : n + 1 + w2 = (n + w2) + 1 := by omega
      rw [hstep]
      show decide ((x + 2 ^ (n + 1) * y) % 2 = 1) ::
          toBitsLSB (n + w2) ((x + 2 ^ (n + 1) * y) / 2) =
        (decide (x % 2 = 1) :: toBitsLSB n (x / 2)) ++ toBitsLSB w2 y
      rw [hmod, hdiv, List.cons_append, ih (x / 2) y hx2]

/-- C9: for every pair of bytes `(b0, b1)`, `read_custom_float [b0, b1]`
returns exactly the same value as `uint16_to_ufloat16 (b0 + 256 * b1)`:
the byte-wise bit-reversal decoder and the whole-16-bit string-reversal
decoder used to build the LUT are equivalent functions. -/
theorem c9_decoders_equivalent (b0 b1 : Nat) (h0 : b0 < 256) (h1 : b1 < 256) :
    read_custom_float b0 b1 = uint16_to_ufloat16 (b0 + 256 * b1) := by
  have h := toBitsLSB_add 8 8 b0 b1 (by simpa using h0)
  norm_num at h
  simp only [read_custom_float, uint16_to_ufloat16, h]

theorem c9_witness : (3 < 256 ∧ 5 < 256) ∧
    read_custom_float 3 5 = uint16_to_ufloat16 (3 + 256 * 5) :=
  ⟨by norm_num, c9_decoders_equivalent 3 5 (by norm_num) (by norm_num)⟩

/-- C1: for every 16-bit unsigned integer `u`, `uint16_to_ufloat16 u`
equals the spec's reference decode `spec_ufloat16 u` (reverse bit order
within each byte of the little-endian value, first 10 bits mantissa `M`,
remaining 6 bits reversed again exponent `E`, value
`(1 + M / 2^10) * 2^(E - 63)`). -/
theorem c1_uint16_matches_spec_decode (u : Nat) (hu : u < 65536) :
    uint16_to_ufloat16 u = spec_ufloat16 u := by
  have hsplit : toBitsLSB 16 u = toBitsLSB 8 (u % 256) ++ toBitsLSB 8 (u / 256) := by
    have h := toBitsLSB_add 8 8 (u % 256) (u / 256)
      (by simpa using Nat.mod_lt u (by norm_num : 0 < 256))
    norm_num at h
    rw [Nat.mod_add_div] at h
    exact h
  simp only [uint16_to_ufloat16, spec_ufloat16, ufloatFromBits, hsplit]

theorem c1_witness : 503 < 65536 ∧ uint16_to_ufloat16 503 = spec_ufloat16 503 :=
  ⟨by norm_num, c1_uint16_matches_spec_decode 503 (by norm_num)⟩

/-- Errors a parse can raise.  `indexError` models an uncaught Python
`IndexError` (out-of-range list assignment), `attrError` an uncaught
`AttributeError` (reading a `self` attribute that was never assigned),
`valueError` an uncaught numpy reshape failure. -/
inductive PyErr : Type
  | indexError
  | attrError
  | valueError
  deriving DecidableEq, Repr

/-- One 44-byte sub-directory entry (the fields the parser reads). -/
structure SubDirEntry : Type where
  pos : Nat
  start : Nat
  size : Nat
  patient_id : Nat
  study_id : Nat
  series_id : Nat
  slice_id : ℤ
  deriving DecidableEq, Repr

/-- A decoded 127-byte patient record (`patient_id_structure`). -/
structure PatientRecord : Type where
  first_name : String
  surname : String
  birthdate : Nat
  sex : String
  patient_id : String
  deriving DecidableEq, Repr

/-- A decoded contour value array: float32 entries after the source's
sentinel substitution, `none` standing for NaN. -/
abbrev Contour : Type := List (Option ℚ)

/-- Largest finite float32, `np.finfo(np.float32).max`, exactly. -/
def flt32max : ℚ := (2 - 1 / 2 ^ 23) * 2 ^ 127

/-- The sentinel substitution on a freshly read contour array: entries
`< 1e-9` or equal to float32 max become NaN (`none`).  The literal
`1e-9` is the IEEE double nearest 10^-9; it differs from the rational
10^-9 by ≈ 6e-26, far less than the gap between adjacent float32
values there, so over float32 inputs the comparison is exactly
`x < 10^-9`. -/
def contourFilter (xs : List ℚ) : Contour :=
  xs.map fun x => if x < 1 / 1000000000 ∨ x = flt32max then none else some x

/-- The bytes following a 60-byte chunk header, as decoded under the
chunk's type.  An `Option` is `none` where the source's `try/except`
(or a short numpy read) observes a decode failure.  For an image chunk
the pixel words available after the 20-byte image header are given;
`np.fromfile`/`f.read` yields at most `count` of them. -/
inductive Payload : Type
  | patientP (p : Option PatientRecord)
  | bscanP (acquisitionTime : Nat)
  | latP (laterality_code : Option Nat)
  | contourP (id : Nat) (width : Nat) (values : Option (List ℚ))
  | imageP (width : Nat) (height : Nat) (px : List Nat)
  | otherP
  deriving DecidableEq, Repr

/-- A 60-byte chunk header (the fields the parser uses) together with
the payload bytes that follow it in the file. -/
structure Chunk : Type where
  patient_id : Nat
  study_id : Nat
  series_id : Nat
  slice_id : ℤ
  ind : Nat
  type : Nat
  payload : Payload
  deriving DecidableEq, Repr

/-- A decoded OCT slice: the `(width, height)`-shaped matrix of
ufloat16 values (the display gamma `256 * x ** (1 / 2.4)` that the
source applies afterwards is omitted; see the header comment). -/
abbrev OctImage : Type := List (List ℚ)

/-- One slot of a volume's slice list: the integer `0` placeholder that
`[0] * n` put there, or a decoded slice. -/
inductive Slot : Type
  | placeholder
  | image (img : OctImage)
  deriving DecidableEq, Repr

/-- The volume key `"{patient_id}_{study_id}_{series_id}"`. -/
def volumeKey (p s r : Nat) : String :=
  toString p ++ "_" ++ toString s ++ "_" ++ toString r

/-- Reshape a flat list into `rows` rows of `cols` entries (only used
when the length is exactly `rows * cols`). -/
def reshapeRows {α : Type} (xs : List α) (rows cols : Nat) : List (List α) :=
  (List.range rows).map fun i => (xs.drop (i * cols)).take cols

/-- `LUT[raw_volume].reshape(width, height)`: the LUT entry for a 16-bit
word `v` is `uint16_to_ufloat16 v`, so indexing the precomputed table is
modelled by applying the function directly. -/
def decodeOctImage (width height : Nat) (px : List Nat) : OctImage :=
  reshapeRows (px.map uint16_to_ufloat16) width height

/-- The `volume_dict` update for one sub-directory entry (e2e.py lines
190-196): first sighting of a key stores `slice_id / 2`; a later strictly
greater `slice_id / 2` overwrites it. -/
def bvStep (d : PyDict String ℚ) (e : SubDirEntry) : PyDict String ℚ :=
  let k := volumeKey e.patient_id e.study_id e.series_id
  match alGet d k with
  | none => alSet d k ((e.slice_id : ℚ) / 2)
  | some m => if (e.slice_id : ℚ) / 2 > m then alSet d k ((e.slice_id : ℚ) / 2) else d

/-- `volume_dict` after the sub-directory scan. -/
def buildVolumeDict (es : List SubDirEntry) : PyDict String ℚ :=
  es.foldl bvStep []

/-- Initialisation of `volume_array_dict` (e2e.py lines 208-211): each
key of `volume_dict` with value `> 0` gets `[0] * int(value + 1)`.
`volume_dict` has distinct keys, so iterating it and assigning into the
fresh dict appends entries in order. -/
def initVolumes : PyDict String ℚ → PyDict String (List Slot)
  | [] => []
  | (k, v) :: rest =>
      if 0 < v then
        (k, List.replicate (pyint (v + 1)).toNat Slot.placeholder) :: initVolumes rest
      else initVolumes rest

/-- Mutable state of one `read_oct_volume` call: the `self` attributes
the loop writes (all `Option`, `none` meaning the attribute is unset —
note `__init__` never sets `patient_id`/`birthdate`), the current
`laterality` variable, and the four accumulating dictionaries. -/
structure OctState : Type where
  sex : Option String := none
  first_name : Option String := none
  surname : Option String := none
  birthdate : Option ℚ := none
  patient_id : Option String := none
  acquisition_date : Option Nat := none
  laterality : Option String := none
  volume_array_dict : PyDict String (List Slot) := []
  volume_array_dict_additional : PyDict String (List OctImage) := []
  laterality_dict : PyDict String String := []
  contour_dict : PyDict String (PyDict String (PyDict ℤ Contour)) := []
  deriving DecidableEq, Repr

/-- The state `read_oct_volume` enters its chunk loop with. -/
def initOctState (vd : PyDict String ℚ) : OctState :=
  { volume_array_dict := initVolumes vd }

/-- Lines 332-334: bind the current laterality to the volume the image
belongs to, unless none is current or the volume already has one. -/
def bindLaterality (lat : Option String) (d : PyDict String String)
    (key : String) : PyDict String String :=
  match lat with
  | some l => if alGet d key = none then alSet d key l else d
  | none => d

/-- Append an orphan image to `volume_array_dict_additional` (lines
322-331): append to the key's bucket, creating it if absent. -/
def appendAdditional (d : PyDict String (List OctImage)) (key : String)
    (img : OctImage) : PyDict String (List OctImage) :=
  match alGet d key with
  | some l => alSet d key (l ++ [img])
  | none => alSet d key [img]

/-- The nested defaultdict write
`contour_dict[key][name][sliceIdx] = contour` (line 285-287). -/
def contourInsert (d : PyDict String (PyDict String (PyDict ℤ Contour)))
    (key name : String) (sliceIdx : ℤ) (contour : Contour) :
    PyDict String (PyDict String (PyDict ℤ Contour)) :=
  let names := (alGet d key).getD []
  let inner := (alGet names name).getD []
  alSet d key (alSet names name (alSet inner sliceIdx contour))

/-- One iteration of the `read_oct_volume` chunk loop (e2e.py lines
216-334).  The `Bool` is the `break` flag; `.error` is an uncaught
exception.  Dispatch is on `chunk.type`; a `payload` constructor that
does not match the type (impossible for data read from a file) acts as
an ignored chunk. -/
def processChunkOct (s : OctState) (c : Chunk) : Except PyErr (OctState × Bool) :=
  if c.type = 9 then
    match c.payload with
    | .patientP (some p) =>
        .ok ({ s with sex := some p.sex, first_name := some p.first_name,
                      surname := some p.surname,
                      birthdate := some ((p.birthdate : ℚ) / 64 - 14558805),
                      patient_id := some p.patient_id }, false)
    | _ => .ok (s, false)
  else if c.type = 10004 then
    match c.payload with
    | .bscanP t =>
        .ok ({ s with acquisition_date :=
                 if s.acquisition_date = none then some t
                 else s.acquisition_date }, false)
    | _ => .ok (s, false)
  else if c.type = 11 then
    match c.payload with
    | .latP (some code) =>
        if code = 82 then .ok ({ s with laterality := some "R" }, false)
        else if code = 76 then .ok ({ s with laterality := some "L" }, false)
        else .ok (s, false)
    | .latP none => .ok ({ s with laterality := none }, false)
    | _ => .ok (s, false)
  else if c.type = 10019 then
    match c.payload with
    | .contourP cid width values =>
        if 0 < width then
          match values with
          | none => .ok (s, false)
          | some vals =>
              let key := volumeKey c.patient_id c.study_id c.series_id
              let sliceIdx : ℤ := pyint ((c.slice_id : ℚ) / 2) - 1
              let name := "contour" ++ toString cid
              let cd := contourInsert s.contour_dict key name sliceIdx
                (contourFilter vals)
              .ok ({ s with contour_dict := cd }, false)
        else .ok (s, false)
    | _ => .ok (s, false)
  else if c.type = 1073741824 then
    match c.payload with
    | .imageP width height px =>
        if c.ind = 1 then
          let count := height * width
          if count = 0 then .ok (s, true)
          else
            let key := volumeKey c.patient_id c.study_id c.series_id
            if (px.take count).length = width * height then
              let image := decodeOctImage width height (px.take count)
              match alGet s.volume_array_dict key with
              | some lst =>
                  match pySet lst (pyint ((c.slice_id : ℚ) / 2) - 1)
                      (Slot.image image) with
                  | some lst' =>
                      .ok ({ s with
                              volume_array_dict := alSet s.volume_array_dict key lst',
                              laterality_dict :=
                                bindLaterality s.laterality s.laterality_dict key },
                           false)
                  | none => .error .indexError
              | none =>
                  .ok ({ s with
                          volume_array_dict_additional :=
                            appendAdditional s.volume_array_dict_additional key image,
                          laterality_dict :=
                            bindLaterality s.laterality s.laterality_dict key },
                       false)
            else .ok (s, false)
        else .ok (s, false)
    | _ => .ok (s, false)
  else .ok (s, false)

/-- The chunk loop of `read_oct_volume`: process chunks in order, stop
early on `break`, abort on an uncaught exception. -/
def runChunksOct (s : OctState) : List Chunk → Except PyErr OctState
  | [] => .ok s
  | c :: rest =>
      match processChunkOct s c with
      | .error e => .error e
      | .ok (s', brk) => if brk then .ok s' else runChunksOct s' rest

/-- Length of the `[None] * (num_slices or len(v))` pre-fill for one
contour name (lines 336-344): `int(volume_dict[id]) + 1` when the id has
a sub-directory record and that integer is nonzero (a negative value
gives the empty list), else the number of decoded slice entries. -/
def emittedLen (vd : PyDict String ℚ) (k : String)
    (inner : PyDict ℤ Contour) : Nat :=
  match alGet vd k with
  | some v => let n := pyint v + 1; if n = 0 then inner.length else n.toNat
  | none => inner.length

/-- The write loop `contour_data[id][name][slice_id] = contour` for one
contour name, over the pre-filled list. -/
def writeContours : List (Option Contour) → List (ℤ × Contour) →
    Except PyErr (List (Option Contour))
  | lst, [] => .ok lst
  | lst, (i, c) :: rest =>
      match pySet lst i (some c) with
      | some lst' => writeContours lst' rest
      | none => .error .indexError

/-- Pre-fill and write one contour name's slice list. -/
def assembleOneName (L : Nat) (inner : PyDict ℤ Contour) :
    Except PyErr (List (Option Contour)) :=
  writeContours (List.replicate L none) inner

/-- Assemble the emitted contour dictionary of one volume id. -/
def assembleOneVolume (vd : PyDict String ℚ) (k : String) :
    PyDict String (PyDict ℤ Contour) →
    Except PyErr (PyDict String (List (Option Contour)))
  | [] => .ok []
  | (nm, inner) :: rest =>
      match assembleOneName (emittedLen vd k inner) inner with
      | .error e => .error e
      | .ok lst =>
          match assembleOneVolume vd k rest with
          | .error e => .error e
          | .ok out => .ok ((nm, lst) :: out)

/-- The `contour_data` assembly over all volume ids (lines 336-348). -/
def assembleContours (vd : PyDict String ℚ) :
    PyDict String (PyDict String (PyDict ℤ Contour)) →
    Except PyErr (PyDict String (PyDict String (List (Option Contour))))
  | [] => .ok []
  | (k, contours) :: rest =>
      match assembleOneVolume vd k contours with
      | .error e => .error e
      | .ok r =>
          match assembleContours vd rest with
          | .error e => .error e
          | .ok out => .ok ((k, r) :: out)

/-- Modelled from the spec: `OCTVolumeWithMetaData` lives in
`oct_converter/image_types.py`, which is not under `src/`; §3 of the
spec lists its fields and says `num_slices` is derived from the slice
sequence length (the older `src/file_io/image_types.py` sets
`num_slices = len(self.volume)`, agreeing). -/
structure OCTVolumeWithMetaData : Type where
  volume : List Slot
  patient_id : String
  first_name : Option String
  surname : Option String
  sex : Option String
  acquisition_date : Option Nat
  volume_id : String
  laterality : Option String
  contours : Option (PyDict String (List (Option Contour)))
  deriving DecidableEq, Repr

/-- Modelled from the spec: `num_slices` is derived from the slice
sequence length. -/
def OCTVolumeWithMetaData.num_slices (v : OCTVolumeWithMetaData) : Nat :=
  v.volume.length

/-- The emission loop (e2e.py lines 350-371) over the chained items of
`volume_array_dict` and `volume_array_dict_additional`: skip a volume
whose slot 0 is still the integer placeholder (`volume[0]` on an empty
list would raise `IndexError`), otherwise construct the output entity —
which reads `self.patient_id` and raises `AttributeError` when no
patient chunk ever decoded successfully. -/
def emitLoop (s : OctState)
    (cdata : PyDict String (PyDict String (List (Option Contour))))
    (acc : List OCTVolumeWithMetaData) :
    List (String × List Slot) → Except PyErr (List OCTVolumeWithMetaData)
  | [] => .ok acc
  | (k, volume) :: rest =>
      match volume with
      | [] => .error .indexError
      | Slot.placeholder :: _ => emitLoop s cdata acc rest
      | Slot.image _ :: _ =>
          match s.patient_id with
          | none => .error .attrError
          | some pid =>
              emitLoop s cdata
                (acc ++ [{ volume := volume, patient_id := pid,
                           first_name := s.first_name, surname := s.surname,
                           sex := s.sex, acquisition_date := s.acquisition_date,
                           volume_id := k,
                           laterality := alGet s.laterality_dict k,
                           contours := alGet cdata k }]) rest

/-- Emission of all OCT volumes from the final loop state. -/
def emitVolumes (s : OctState)
    (cdata : PyDict String (PyDict String (List (Option Contour)))) :
    Except PyErr (List OCTVolumeWithMetaData) :=
  emitLoop s cdata []
    (s.volume_array_dict ++
      s.volume_array_dict_additional.map (fun kv => (kv.1, kv.2.map Slot.image)))

/-- `E2E.read_oct_volume` from the point where the directory walk has
produced the ordered sub-directory entries.  The input pairs each entry
with the chunk found at its `start` offset (the byte-level header and
directory decoding, which the claims do not touch, is abstracted into
this list).  Entries with `start > pos` contribute their chunk to
`chunk_stack`; all entries feed `volume_dict`. -/
def read_oct_volume (entries : List (SubDirEntry × Chunk)) :
    Except PyErr (List OCTVolumeWithMetaData) :=
  match runChunksOct (initOctState (buildVolumeDict (entries.map Prod.fst)))
      ((entries.filter fun ec => ec.1.pos < ec.1.start).map Prod.snd) with
  | .error e => .error e
  | .ok s =>
      match assembleContours (buildVolumeDict (entries.map Prod.fst)) s.contour_dict with
      | .error e => .error e
      | .ok cdata => emitVolumes s cdata

/-- Mutable state of one `read_fundus_image` call. -/
structure FundusState : Type where
  sex : Option String := none
  first_name : Option String := none
  surname : Option String := none
  birthdate : Option ℚ := none
  patient_id : Option String := none
  laterality : Option String := none
  image_array_dict : PyDict String (List (List Nat)) := []
  laterality_dict : PyDict String (Option String) := []
  deriving DecidableEq, Repr

/-- One iteration of the `read_fundus_image` chunk loop (e2e.py lines
417-462).  For an image chunk the zero-size check and `break` happen
before `ind` is consulted; the fundus reshape is not guarded by a
`try`, so a short pixel read is fatal. -/
def processChunkFundus (s : FundusState) (c : Chunk) :
    Except PyErr (FundusState × Bool) :=
  if c.type = 9 then
    match c.payload with
    | .patientP (some p) =>
        .ok ({ s with sex := some p.sex, first_name := some p.first_name,
                      surname := some p.surname,
                      birthdate := some ((p.birthdate : ℚ) / 64 - 14558805),
                      patient_id := some p.patient_id }, false)
    | _ => .ok (s, false)
  else if c.type = 11 then
    match c.payload with
    | .latP (some code) =>
        if code = 82 then .ok ({ s with laterality := some "R" }, false)
        else if code = 76 then .ok ({ s with laterality := some "L" }, false)
        else .ok (s, false)
    | .latP none => .ok ({ s with laterality := none }, false)
    | _ => .ok (s, false)
  else if c.type = 1073741824 then
    match c.payload with
    | .imageP width height px =>
        let count := height * width
        if count = 0 then .ok (s, true)
        else if c.ind = 0 then
          if (px.take count).length = count then
            let image := reshapeRows (px.take count) height width
            let key := volumeKey c.patient_id c.study_id c.series_id
            .ok ({ s with image_array_dict := alSet s.image_array_dict key image,
                          laterality_dict :=
                            alSet s.laterality_dict key s.laterality }, false)
          else .error .valueError
        else .ok (s, false)
    | _ => .ok (s, false)
  else .ok (s, false)

/-- The chunk loop of `read_fundus_image`. -/
def runChunksFundus (s : FundusState) : List Chunk → Except PyErr FundusState
  | [] => .ok s
  | c :: rest =>
      match processChunkFundus s c with
      | .error e => .error e
      | .ok (s', brk) => if brk then .ok s' else runChunksFundus s' rest

/-- Modelled from the spec: `FundusImageWithMetaData` lives in
`oct_converter/image_types.py`, which is not under `src/`; §3 of the
spec lists its fields. -/
structure FundusImageWithMetaData : Type where
  image : List (List Nat)
  patient_id : String
  image_id : String
  laterality : Option String
  deriving DecidableEq, Repr

/-- The fundus emission loop (e2e.py lines 463-474). -/
def emitFundus (s : FundusState) (acc : List FundusImageWithMetaData) :
    List (String × List (List Nat)) → Except PyErr (List FundusImageWithMetaData)
  | [] => .ok acc
  | (k, image) :: rest =>
      match s.patient_id with
      | none => .error .attrError
      | some pid =>
          emitFundus s
            (acc ++ [{ image := image, patient_id := pid, image_id := k,
                       laterality := (alGet s.laterality_dict k).join }]) rest

/-- `E2E.read_fundus_image` from the sub-directory entries, like
`read_oct_volume` above. -/
def read_fundus_image (entries : List (SubDirEntry × Chunk)) :
    Except PyErr (List FundusImageWithMetaData) :=
  match runChunksFundus {}
      ((entries.filter fun ec => ec.1.pos < ec.1.start).map Prod.snd) with
  | .error e => .error e
  | .ok s => emitFundus s [] s.image_array_dict

theorem alGet_alSet_self {κ α : Type} [DecidableEq κ] (d : PyDict κ α) (k : κ) (v : α) :
    alGet (alSet d k v) k = some v := by
  induction d with
  | nil => simp [alSet, alGet]
  | cons p rest ih =>
      obtain ⟨k', v'⟩ := p
      by_cases h : k' = k
      · simp [alSet, alGet, h]
      · simp [alSet, alGet, h, ih]

theorem alGet_alSet_ne {κ α : Type} [DecidableEq κ] (d : PyDict κ α) (k k' : κ) (v : α)
    (h : k' ≠ k) : alGet (alSet d k v) k' = alGet d k' := by
  have hne : k ≠ k' := fun hh => h hh.symm
  induction d with
  | nil =>
      show alGet [(k, v)] k' = none
      rw [alGet, if_neg hne]
      rfl
  | cons p rest ih =>
      obtain ⟨k'', v'⟩ := p
      by_cases h2 : k'' = k
      · subst h2
        rw [alSet, if_pos rfl]
        show (if k'' = k' then some v else alGet rest k') = _
        rw [if_neg hne, alGet, if_neg hne]
      · rw [alSet, if_neg h2, alGet, alGet]
        by_cases h3 : k'' = k'
        · rw [if_pos h3, if_pos h3]
        · rw [if_neg h3, if_neg h3]
          exact ih

theorem mem_alKeys_alSet {κ α : Type} [DecidableEq κ] (d : PyDict κ α) (k k' : κ) (v : α) :
    k' ∈ alKeys (alSet d k v) ↔ k' ∈ alKeys d ∨ k' = k := by
  induction d with
  | nil => simp [alSet, alKeys]
  | cons p rest ih =>
      obtain ⟨k'', v'⟩ := p
      by_cases h : k'' = k
      · subst h
        rw [alSet, if_pos rfl]
        simp only [alKeys, List.map_cons, List.mem_cons]
        tauto
      · rw [alSet, if_neg h]
        simp only [alKeys, List.map_cons, List.mem_cons] at ih ⊢
        tauto

theorem noDupKeys_alSet {κ α : Type} [DecidableEq κ] (d : PyDict κ α) (k : κ) (v : α)
    (h : NoDupKeys d) : NoDupKeys (alSet d k v) := by
  induction d with
  | nil => simp [alSet, NoDupKeys]
  | cons p rest ih =>
      obtain ⟨k'', v'⟩ := p
      rw [NoDupKeys, List.map_cons, List.nodup_cons] at h
      by_cases h2 : k'' = k
      · subst h2
        rw [NoDupKeys, alSet, if_pos rfl, List.map_cons, List.nodup_cons]
        exact h
      · rw [NoDupKeys, alSet, if_neg h2, List.map_cons, List.nodup_cons]
        refine ⟨?_, ih h.2⟩
        intro hmem
        rcases (mem_alKeys_alSet rest k k'' v).mp hmem with h3 | h3
        · exact h.1 h3
        · exact h2 h3

/-- Running maximum of a list of rationals (`none` on the empty list). -/
def listMaxQ (l : List ℚ) : Option ℚ :=
  l.foldl (fun acc x => some (match acc with | none => x | some m => max m x)) none

theorem listMaxQ_concat (l : List ℚ) (x : ℚ) :
    listMaxQ (l ++ [x]) =
      some (match listMaxQ l with | none => x | some m => max m x) := by
  rw [listMaxQ, List.foldl_append, List.foldl_cons, List.foldl_nil]
  rfl

/-- The `slice_id / 2` values declared by the sub-directory scan for one
volume key, in scan order. -/
def keyVals (es : List SubDirEntry) (k : String) : List ℚ :=
  (es.filter fun e => volumeKey e.patient_id e.study_id e.series_id == k).map
    fun e => (e.slice_id : ℚ) / 2

theorem noDupKeys_buildVolumeDict (es : List SubDirEntry) :
    NoDupKeys (buildVolumeDict es) := by
  rw [buildVolumeDict]
  have h : ∀ d : PyDict String ℚ, NoDupKeys d → NoDupKeys (es.foldl bvStep d) := by
    induction es with
    | nil => intro d hd; exact hd
    | cons e rest ih =>
        intro d hd
        rw [List.foldl_cons]
        refine ih _ ?_
        rw [bvStep]
        cases alGet d (volumeKey e.patient_id e.study_id e.series_id) with
        | none => exact noDupKeys_alSet _ _ _ hd
        | some m =>
            dsimp only
            split
            · exact noDupKeys_alSet _ _ _ hd
            · exact hd
  exact h [] (by simp [NoDupKeys])

theorem buildVolumeDict_get (es : List SubDirEntry) (k : String) :
    alGet (buildVolumeDict es) k = listMaxQ (keyVals es k) := by
  induction es using List.reverseRecOn with
  | nil => simp [buildVolumeDict, alGet, keyVals, listMaxQ]
  | append_singleton es e ih =>
      rw [buildVolumeDict, List.foldl_append, List.foldl_cons, List.foldl_nil,
        ← buildVolumeDict]
      rw [keyVals, List.filter_append]
      by_cases hk : volumeKey e.patient_id e.study_id e.series_id = k
      · have hfe : List.filter
            (fun e => volumeKey e.patient_id e.study_id e.series_id == k) [e] = [e] := by
          simp [List.filter_singleton, hk]
        rw [hfe, List.map_append, List.map_singleton, ← keyVals, listMaxQ_concat]
        rw [bvStep, hk, ih]
        cases h : listMaxQ (keyVals es k) with
        | none => simp [alGet_alSet_self]
        | some m =>
            dsimp only
            by_cases hgt : (e.slice_id : ℚ) / 2 > m
            · rw [if_pos hgt, alGet_alSet_self]
              simp [max_eq_right (le_of_lt hgt)]
            · rw [if_neg hgt, ih, h]
              simp [max_eq_left (not_lt.mp hgt)]
      · have hfe : List.filter
            (fun e => volumeKey e.patient_id e.study_id e.series_id == k) [e] = [] := by
          simp [List.filter_singleton, hk]
        rw [hfe, List.map_append, List.map_nil, List.append_nil, ← keyVals]
        rw [bvStep]
        cases h : alGet (buildVolumeDict es) (volumeKey e.patient_id e.study_id e.series_id) with
        | none => rw [alGet_alSet_ne _ _ _ _ (fun hh => hk hh.symm), ih]
        | some m =>
            dsimp only
            split
            · rw [alGet_alSet_ne _ _ _ _ (fun hh => hk hh.symm), ih]
            · exact ih

theorem alGet_initVolumes_of_not_mem (vd : PyDict String ℚ) (k : String)
    (h : k ∉ alKeys vd) : alGet (initVolumes vd) k = none := by
  induction vd with
  | nil => rfl
  | cons p rest ih =>
      obtain ⟨k0, v0⟩ := p
      rw [alKeys, List.map_cons, List.mem_cons] at h
      push_neg at h
      rw [initVolumes]
      split
      · rw [alGet, if_neg (Ne.symm h.1)]
        exact ih h.2
      · exact ih h.2

theorem initVolumes_get (vd : PyDict String ℚ) (hnd : NoDupKeys vd) (k : String) :
    alGet (initVolumes vd) k =
      match alGet vd k with
      | some v =>
          if 0 < v then some (List.replicate (pyint (v + 1)).toNat Slot.placeholder)
          else none
      | none => none := by
  induction vd with
  | nil => rfl
  | cons p rest ih =>
      obtain ⟨k0, v0⟩ := p
      rw [NoDupKeys, List.map_cons, List.nodup_cons] at hnd
      by_cases h : k0 = k
      · subst h
        rw [alGet, if_pos rfl, initVolumes]
        by_cases hv : 0 < v0
        · rw [if_pos hv, alGet, if_pos rfl]
          show some _ =
            if 0 < v0 then some (List.replicate (pyint (v0 + 1)).toNat Slot.placeholder)
            else none
          rw [if_pos hv]
        · rw [if_neg hv, alGet_initVolumes_of_not_mem rest k0 hnd.1]
          show none =
            if 0 < v0 then some (List.replicate (pyint (v0 + 1)).toNat Slot.placeholder)
            else none
          rw [if_neg hv]
      · rw [alGet, if_neg h, initVolumes]
        split
        · rw [alGet, if_neg h]
          exact ih hnd.2
        · exact ih hnd.2

theorem pyint_pos_add_one (v : ℚ) (h : 0 < v) : pyint (v + 1) = pyint v + 1 := by
  rw [pyint, pyint, if_pos (le_of_lt h), if_pos (by positivity : (0:ℚ) ≤ v + 1)]
  exact_mod_cast Int.floor_add_one v

theorem pyint_nonneg (v : ℚ) (h : 0 ≤ v) : 0 ≤ pyint v := by
  rw [pyint, if_pos h]
  exact Int.floor_nonneg.mpr h

/-- C4: for every volume key observed during the sub-directory scan, the
recorded `volume_dict` value is the maximum observed `slice_id / 2`;
when that maximum is `> 0` the initialised slice sequence has length
`int(max) + 1` (all placeholder slots), and when it is `≤ 0` the key is
not initialised at all. -/
theorem c4_volume_dict_init (es : List SubDirEntry) (k : String) (v : ℚ)
    (h : alGet (buildVolumeDict es) k = some v) :
    listMaxQ (keyVals es k) = some v ∧
      (0 < v → alGet (initVolumes (buildVolumeDict es)) k =
        some (List.replicate ((pyint v).toNat + 1) Slot.placeholder)) ∧
      (v ≤ 0 → alGet (initVolumes (buildVolumeDict es)) k = none) := by
  refine ⟨by rw [← buildVolumeDict_get es k, h], ?_, ?_⟩
  · intro hv
    rw [initVolumes_get _ (noDupKeys_buildVolumeDict es) k, h]
    simp only [if_pos hv]
    have h1 := pyint_pos_add_one v hv
    have h2 := pyint_nonneg v (le_of_lt hv)
    rw [h1, show (pyint v + 1).toNat = (pyint v).toNat + 1 by omega]
  · intro hv
    rw [initVolumes_get _ (noDupKeys_buildVolumeDict es) k, h]
    simp [not_lt.mpr hv]

theorem c4_witness :
    listMaxQ (keyVals [⟨0, 100, 0, 1, 1, 1, 3⟩] "1_1_1") = some (3 / 2) ∧
      (0 < (3 / 2 : ℚ) →
        alGet (initVolumes (buildVolumeDict [⟨0, 100, 0, 1, 1, 1, 3⟩])) "1_1_1" =
          some (List.replicate ((pyint (3 / 2)).toNat + 1) Slot.placeholder)) ∧
      ((3 / 2 : ℚ) ≤ 0 →
        alGet (initVolumes (buildVolumeDict [⟨0, 100, 0, 1, 1, 1, 3⟩])) "1_1_1" = none) :=
  c4_volume_dict_init [⟨0, 100, 0, 1, 1, 1, 3⟩] "1_1_1" (3 / 2) (by decide)

theorem runChunksOct_cons (s : OctState) (c : Chunk) (rest : List Chunk) :
    runChunksOct s (c :: rest) =
      match processChunkOct s c with
      | .error e => .error e
      | .ok (s', brk) => if brk then .ok s' else runChunksOct s' rest := rfl

theorem runChunksFundus_cons (s : FundusState) (c : Chunk) (rest : List Chunk) :
    runChunksFundus s (c :: rest) =
      match processChunkFundus s c with
      | .error e => .error e
      | .ok (s', brk) => if brk then .ok s' else runChunksFundus s' rest := rfl

/-- A zero-sized image chunk with `ind = 0`, as found in a file. -/
def exZeroImgInd0 : Chunk := ⟨1, 1, 1, 0, 0, 1073741824, .imageP 0 5 []⟩

/-- A laterality chunk with code 82 (`"R"`). -/
def exLat82 : Chunk := ⟨0, 0, 0, 0, 0, 11, .latP (some 82)⟩

/-- C2 counterexample: in `read_oct_volume`, an image chunk with
`width * height = 0` but `ind = 0` does NOT abort the processing of the
remaining chunk references — a later laterality chunk is still
processed, so the run differs from the run truncated at the zero-sized
chunk.  Under the claim the two runs would be equal. -/
theorem c2_counterexample :
    runChunksOct (initOctState []) [exZeroImgInd0, exLat82] ≠
      runChunksOct (initOctState []) [exZeroImgInd0] := by decide

/-- C2 amended: a zero-sized image chunk aborts the remaining chunks of
the current call in `read_oct_volume` only when `ind = 1` (when
`ind ≠ 1` the loop continues with the state unchanged), while in
`read_fundus_image` it aborts regardless of `ind`. -/
theorem c2_amended (s : OctState) (sf : FundusState) (c : Chunk) (w h : Nat)
    (px : List Nat) (rest : List Chunk)
    (ht : c.type = 1073741824) (hp : c.payload = .imageP w h px) (hz : h * w = 0) :
    (c.ind = 1 → runChunksOct s (c :: rest) = .ok s) ∧
      (c.ind ≠ 1 → runChunksOct s (c :: rest) = runChunksOct s rest) ∧
      runChunksFundus sf (c :: rest) = .ok sf := by
  have hoct : processChunkOct s c =
      if c.ind = 1 then .ok (s, true) else .ok (s, false) := by
    by_cases hi : c.ind = 1 <;> simp [processChunkOct, ht, hp, hi, hz]
  have hfun : processChunkFundus sf c = .ok (sf, true) := by
    simp [processChunkFundus, ht, hp, hz]
  refine ⟨?_, ?_, ?_⟩
  · intro hi
    rw [runChunksOct_cons, hoct, if_pos hi]
    rfl
  · intro hi
    rw [runChunksOct_cons, hoct, if_neg hi]
    rfl
  · rw [runChunksFundus_cons, hfun]
    rfl

theorem c2_amended_witness :
    (exZeroImgInd0.type = 1073741824 ∧ exZeroImgInd0.payload = .imageP 0 5 [] ∧
      5 * 0 = 0) ∧
    ((exZeroImgInd0.ind = 1 → runChunksOct (initOctState []) [exZeroImgInd0, exLat82] =
        .ok (initOctState [])) ∧
     (exZeroImgInd0.ind ≠ 1 → runChunksOct (initOctState []) [exZeroImgInd0, exLat82] =
        runChunksOct (initOctState []) [exLat82]) ∧
     runChunksFundus {} [exZeroImgInd0, exLat82] = .ok {}) :=
  ⟨⟨rfl, rfl, rfl⟩,
    c2_amended (initOctState []) {} exZeroImgInd0 0 5 [] [exLat82] rfl rfl rfl⟩

/-- A sub-directory entry declaring volume `1_1_1` with `slice_id = 2`. -/
def exSubK : SubDirEntry := ⟨0, 100, 0, 1, 1, 1, 2⟩

/-- A 1×1 OCT B-scan image chunk for volume `1_1_1`, `slice_id = 2`
(pixel word 64512 decodes to the ufloat16 value 1). -/
def exImgK : Chunk := ⟨1, 1, 1, 2, 1, 1073741824, .imageP 1 1 [64512]⟩

/-- A well-formed file with one populated OCT volume and no patient
chunk at all. -/
def exFileNoPatient : List (SubDirEntry × Chunk) := [(exSubK, exImgK)]

/-- C3 (code bug witness): on a well-formed file containing one
populated OCT volume but no patient chunk, `read_oct_volume` does not
return its volumes — constructing the output entity reads
`self.patient_id`, which `__init__` never set, and the call dies with
an `AttributeError` even though no fatal error kind of §7 was
triggered. -/
theorem c3_attribute_error :
    read_oct_volume exFileNoPatient = .error .attrError := by decide

/-- A successfully decoded patient chunk. -/
def exPatChunk : Chunk := ⟨0, 0, 0, 0, 0, 9, .patientP (some ⟨"fn", "sn", 0, "M", "p1"⟩)⟩

/-- A sub-directory entry hosting the patient chunk (its own ids declare
volume `9_9_9` with `slice_id = 0`, which stays uninitialised). -/
def exSubP : SubDirEntry := ⟨0, 200, 0, 9, 9, 9, 0⟩

/-- A file whose only volume `1_1_1` is declared with maximum
`slice_id = 2`, so its slice list has length `int(1) + 1 = 2`, but only
slot 0 ever receives an image. -/
def exFileTrailing : List (SubDirEntry × Chunk) := [(exSubK, exImgK), (exSubP, exPatChunk)]

/-- The volume `read_oct_volume exFileTrailing` returns: slot 1 is
still the integer placeholder. -/
def exVolTrailing : OCTVolumeWithMetaData :=
  { volume := [.image [[1]], .placeholder], patient_id := "p1",
    first_name := some "fn", surname := some "sn", sex := some "M",
    acquisition_date := none, volume_id := "1_1_1", laterality := none,
    contours := none }

/-- C5 counterexample: `read_oct_volume` returns a volume one of whose
slots is the integer placeholder sentinel — the assembler only inspects
slot 0, so trailing unfilled slots survive into the output. -/
theorem c5_counterexample :
    read_oct_volume exFileTrailing = .ok [exVolTrailing] ∧
      Slot.placeholder ∈ exVolTrailing.volume :=
  ⟨by decide, by decide⟩

theorem emitLoop_mem (s : OctState)
    (cdata : PyDict String (PyDict String (List (Option Contour)))) :
    ∀ (items : List (String × List Slot)) (acc vols : List OCTVolumeWithMetaData),
      emitLoop s cdata acc items = .ok vols →
      (∀ v ∈ acc, 0 < v.volume.length ∧ v.volume.head? ≠ some Slot.placeholder) →
      ∀ v ∈ vols, 0 < v.volume.length ∧ v.volume.head? ≠ some Slot.placeholder := by
  intro items
  induction items with
  | nil =>
      intro acc vols h hacc
      rw [emitLoop.eq_def] at h
      cases h
      exact hacc
  | cons p rest ih =>
      intro acc vols h hacc
      obtain ⟨k, volume⟩ := p
      rw [emitLoop.eq_def] at h
      rcases volume with _ | ⟨s0, tail⟩
      · simp at h
      · rcases s0 with _ | img
        · exact ih acc vols h hacc
        · rcases hpid : s.patient_id with _ | pid
          · rw [hpid] at h
            simp at h
          · rw [hpid] at h
            refine ih _ vols h ?_
            intro v hv
            rcases List.mem_append.mp hv with hv | hv
            · exact hacc v hv
            · rcases List.mem_singleton.mp hv with rfl
              refine ⟨by simp, by simp⟩

/-- C5 amended: for every `OCTVolumeWithMetaData` returned by
`read_oct_volume`, `num_slices` equals the length of its slice
sequence, that length is positive, and slot 0 is not the integer
placeholder sentinel.  (Slots other than slot 0 may still hold the
placeholder — see the counterexample — because the assembler inspects
only `volume[0]`.) -/
theorem c5_amended (entries : List (SubDirEntry × Chunk)) (vols : List OCTVolumeWithMetaData)
    (hok : read_oct_volume entries = .ok vols) (v : OCTVolumeWithMetaData) (hv : v ∈ vols) :
    v.num_slices = v.volume.length ∧ 0 < v.volume.length ∧
      v.volume.head? ≠ some Slot.placeholder := by
  refine ⟨rfl, ?_⟩
  rw [read_oct_volume] at hok
  split at hok
  · cases hok
  · split at hok
    · cases hok
    · rw [emitVolumes] at hok
      exact emitLoop_mem _ _ _ [] vols hok (by simp) v hv

theorem c5_amended_witness :
    exVolTrailing.num_slices = exVolTrailing.volume.length ∧
      0 < exVolTrailing.volume.length ∧
      exVolTrailing.volume.head? ≠ some Slot.placeholder :=
  c5_amended exFileTrailing [exVolTrailing] (by decide) exVolTrailing (by simp)

/-- The behaviour of the OCT image branch after a successful reshape,
written as a function of the routing key, the declared slice id and the
decoded image (this is the shape `processChunkOct` is proved to reduce
to below). -/
def octImageStep (s : OctState) (key : String) (sl : ℤ) (img : OctImage) :
    Except PyErr (OctState × Bool) :=
  let lat := bindLaterality s.laterality s.laterality_dict key
  match alGet s.volume_array_dict key with
  | none =>
      let add := appendAdditional s.volume_array_dict_additional key img
      .ok ({ s with volume_array_dict_additional := add, laterality_dict := lat }, false)
  | some lst =>
      match pySet lst (pyint ((sl : ℚ) / 2) - 1) (Slot.image img) with
      | some lst' =>
          let vad := alSet s.volume_array_dict key lst'
          .ok ({ s with volume_array_dict := vad, laterality_dict := lat }, false)
      | none => .error .indexError

theorem processChunkOct_image (s : OctState) (pid sid rid : Nat) (sl : ℤ) (w h : Nat)
    (px : List Nat) (hc : h * w ≠ 0) (hl : w * h ≤ px.length) :
    processChunkOct s ⟨pid, sid, rid, sl, 1, 1073741824, .imageP w h px⟩ =
      octImageStep s (volumeKey pid sid rid) sl (decodeOctImage w h (px.take (h * w))) := by
  have hcount : (px.take (h * w)).length = w * h := by
    rw [List.length_take, Nat.mul_comm h w, Nat.min_eq_left hl]
  simp only [processChunkOct, octImageStep, hc, hcount]
  norm_num
  cases alGet s.volume_array_dict (volumeKey pid sid rid) <;> rfl

/-- A sub-directory record declaring volume `2_2_2` with `slice_id = 0`
(so its `volume_dict` maximum is 0 and it is never initialised). -/
def exSubZero : SubDirEntry := ⟨0, 100, 0, 2, 2, 2, 0⟩

/-- A 1×1 OCT image chunk for volume `2_2_2`. -/
def exImgZeroKey : Chunk := ⟨2, 2, 2, 0, 1, 1073741824, .imageP 1 1 [64512]⟩

/-- C6 counterexample: volume id `2_2_2` DOES have a sub-directory
record (it is a key of `volume_dict`), yet its decoded image is routed
to the additional (orphan) bucket, because the declared maximum
`slice_id / 2` is not positive and the key was never initialised in
`volume_array_dict`. -/
theorem c6_counterexample :
    alGet (buildVolumeDict [exSubZero]) "2_2_2" = some 0 ∧
      (runChunksOct (initOctState (buildVolumeDict [exSubZero])) [exImgZeroKey]).map
        (fun st => (alGet st.volume_array_dict "2_2_2",
          (alGet st.volume_array_dict_additional "2_2_2").map List.length)) =
        .ok (none, some 1) :=
  ⟨by decide, by decide⟩

/-- C6 amended: a decoded B-scan image is routed to the additional
(orphan) bucket exactly when its volume_id is not a key of
`volume_array_dict` — by the initialisation characterised in C4, when
it has no sub-directory record with `slice_id / 2 > 0` (not merely no
record at all); an id whose key is initialised has the image placed at
index `int(slice_id / 2) - 1` of its slice list by Python list
assignment. -/
theorem c6_amended (s s' : OctState) (pid sid rid : Nat) (sl : ℤ) (w h : Nat)
    (px : List Nat) (hc : h * w ≠ 0) (hl : w * h ≤ px.length)
    (hrun : processChunkOct s ⟨pid, sid, rid, sl, 1, 1073741824, .imageP w h px⟩ =
      .ok (s', false)) :
    (alGet s.volume_array_dict (volumeKey pid sid rid) = none →
       s'.volume_array_dict = s.volume_array_dict ∧
       alGet s'.volume_array_dict_additional (volumeKey pid sid rid) =
         some (((alGet s.volume_array_dict_additional (volumeKey pid sid rid)).getD []) ++
           [decodeOctImage w h (px.take (h * w))])) ∧
    (∀ lst, alGet s.volume_array_dict (volumeKey pid sid rid) = some lst →
       s'.volume_array_dict_additional = s.volume_array_dict_additional ∧
       pySet lst (pyint ((sl : ℚ) / 2) - 1)
           (Slot.image (decodeOctImage w h (px.take (h * w)))) =
         some ((alGet s'.volume_array_dict (volumeKey pid sid rid)).getD [])) := by
  rw [processChunkOct_image s pid sid rid sl w h px hc hl] at hrun
  constructor
  · intro hget
    rw [octImageStep, hget] at hrun
    simp only [Except.ok.injEq, Prod.mk.injEq] at hrun
    obtain ⟨hs', -⟩ := hrun
    subst hs'
    refine ⟨rfl, ?_⟩
    rw [appendAdditional]
    cases hadd : alGet s.volume_array_dict_additional (volumeKey pid sid rid) with
    | none => rw [alGet_alSet_self]; simp
    | some l => rw [alGet_alSet_self]; simp
  · intro lst hget
    rw [octImageStep, hget] at hrun
    dsimp only at hrun
    cases hps : pySet lst (pyint ((sl : ℚ) / 2) - 1)
        (Slot.image (decodeOctImage w h (px.take (h * w)))) with
    | none => rw [hps] at hrun; cases hrun
    | some lst' =>
        rw [hps] at hrun
        simp only [Except.ok.injEq, Prod.mk.injEq] at hrun
        obtain ⟨hs', -⟩ := hrun
        subst hs'
        refine ⟨rfl, ?_⟩
        rw [alGet_alSet_self]
        rfl

/-- The state after `exImgK` is processed against the initialisation of
`exSubK`: the image lands in slot 0 of volume `1_1_1`. -/
def exStateAfterImg : OctState :=
  { volume_array_dict := [("1_1_1", [.image [[1]], .placeholder])] }

theorem c6_amended_witness :
    exStateAfterImg.volume_array_dict_additional =
        (initOctState (buildVolumeDict [exSubK])).volume_array_dict_additional ∧
      pySet [Slot.placeholder, Slot.placeholder] (pyint (((2 : ℤ) : ℚ) / 2) - 1)
          (Slot.image (decodeOctImage 1 1 ([64512].take (1 * 1)))) =
        some ((alGet exStateAfterImg.volume_array_dict (volumeKey 1 1 1)).getD []) :=
  (c6_amended (initOctState (buildVolumeDict [exSubK])) exStateAfterImg 1 1 1 2 1 1 [64512]
      (by decide) (by decide) (by decide)).2
    [Slot.placeholder, Slot.placeholder] (by decide)

/-- A laterality chunk whose decoded code is 5 (neither 82 nor 76). -/
def exLat5 : Chunk := ⟨0, 0, 0, 0, 0, 11, .latP (some 5)⟩

/-- A loop state in which the current laterality is `"R"`. -/
def exStateR : OctState := { laterality := some "R" }

/-- C7 counterexample: a successfully decoded laterality chunk whose
code is neither 82 nor 76 leaves the current laterality unchanged
(still `"R"` here) instead of setting it to absent — the source has no
`else` branch for unknown codes. -/
theorem c7_counterexample :
    (processChunkOct exStateR exLat5).map (fun p => p.1.laterality) = .ok (some "R") ∧
      some "R" ≠ (none : Option String) :=
  ⟨by decide, by decide⟩

/-- C7 amended: when a laterality chunk is processed (in either
`read_oct_volume` or `read_fundus_image`), code 82 sets the current
laterality to `"R"`, 76 sets it to `"L"`, a decode failure sets it to
absent, and any other successfully decoded code leaves it unchanged. -/
theorem c7_amended (s : OctState) (sf : FundusState) (c : Chunk) (code : Nat)
    (ht : c.type = 11) :
    (c.payload = .latP (some 82) →
        processChunkOct s c = .ok ({ s with laterality := some "R" }, false) ∧
        processChunkFundus sf c = .ok ({ sf with laterality := some "R" }, false)) ∧
    (c.payload = .latP (some 76) →
        processChunkOct s c = .ok ({ s with laterality := some "L" }, false) ∧
        processChunkFundus sf c = .ok ({ sf with laterality := some "L" }, false)) ∧
    (c.payload = .latP none →
        processChunkOct s c = .ok ({ s with laterality := none }, false) ∧
        processChunkFundus sf c = .ok ({ sf with laterality := none }, false)) ∧
    (code ≠ 82 → code ≠ 76 → c.payload = .latP (some code) →
        processChunkOct s c = .ok (s, false) ∧
        processChunkFundus sf c = .ok (sf, false)) := by
  refine ⟨?_, ?_, ?_, ?_⟩
  · intro hp
    constructor <;> simp [processChunkOct, processChunkFundus, ht, hp]
  · intro hp
    constructor <;> simp [processChunkOct, processChunkFundus, ht, hp]
  · intro hp
    constructor <;> simp [processChunkOct, processChunkFundus, ht, hp]
  · intro h82 h76 hp
    constructor <;> simp [processChunkOct, processChunkFundus, ht, hp, h82, h76]

theorem c7_amended_witness :
    processChunkOct exStateR exLat5 = .ok (exStateR, false) ∧
      processChunkFundus {} exLat5 = .ok ({}, false) :=
  (c7_amended exStateR {} exLat5 5 rfl).2.2.2 (by decide) (by decide) rfl

/-- C10: when a decoded OCT image chunk has `slice_id` 0 or 1 and its
volume id has an initialised (hence non-empty) slice sequence, the
computed index `int(slice_id / 2) - 1` is `-1`, and Python's negative
indexing stores the image into the LAST slot of the sequence rather
than rejecting it or placing it at a non-negative position. -/
theorem c10_negative_index_wraps (s : OctState) (pid sid rid : Nat) (sl : ℤ)
    (w h : Nat) (px : List Nat) (lst : List Slot)
    (hsl : sl = 0 ∨ sl = 1)
    (hget : alGet s.volume_array_dict (volumeKey pid sid rid) = some lst)
    (hne : 0 < lst.length)
    (hc : h * w ≠ 0) (hl : w * h ≤ px.length) :
    pyint ((sl : ℚ) / 2) - 1 = -1 ∧
      processChunkOct s ⟨pid, sid, rid, sl, 1, 1073741824, .imageP w h px⟩ =
        octImageStep s (volumeKey pid sid rid) sl (decodeOctImage w h (px.take (h * w))) ∧
      octImageStep s (volumeKey pid sid rid) sl (decodeOctImage w h (px.take (h * w))) =
        .ok ({ s with
                volume_array_dict :=
                  alSet s.volume_array_dict (volumeKey pid sid rid)
                    (lst.set (lst.length - 1)
                      (Slot.image (decodeOctImage w h (px.take (h * w))))),
                laterality_dict :=
                  bindLaterality s.laterality s.laterality_dict (volumeKey pid sid rid) },
             false) := by
  have hidx : pyint ((sl : ℚ) / 2) - 1 = -1 := by
    rcases hsl with rfl | rfl <;> decide
  refine ⟨hidx, processChunkOct_image s pid sid rid sl w h px hc hl, ?_⟩
  have hps : pySet lst (pyint ((sl : ℚ) / 2) - 1)
      (Slot.image (decodeOctImage w h (px.take (h * w)))) =
      some (lst.set (lst.length - 1)
        (Slot.image (decodeOctImage w h (px.take (h * w))))) := by
    rw [hidx]
    simp only [pySet]
    rw [if_pos (by norm_num : (-1 : ℤ) < 0)]
    rw [if_pos (by omega : (0 : ℤ) ≤ -1 + lst.length ∧ -1 + (lst.length : ℤ) < lst.length)]
    congr 1
    congr 1
    omega
  rw [octImageStep, hget]
  dsimp only
  rw [hps]

/-- A state whose volume `1_1_1` has a single initialised slot. -/
def exState10 : OctState := { volume_array_dict := [("1_1_1", [.placeholder])] }

/-- An OCT image chunk for volume `1_1_1` with `slice_id = 0`. -/
def exImg10 : Chunk := ⟨1, 1, 1, 0, 1, 1073741824, .imageP 1 1 [64512]⟩

/-- The image `exImg10` decodes to. -/
def exDecoded10 : OctImage := decodeOctImage 1 1 ([64512].take (1 * 1))

/-- The slot list of volume `1_1_1` after `exImg10` lands in the last
slot. -/
def exSlots10 : List Slot :=
  [Slot.placeholder].set (List.length [Slot.placeholder] - 1) (Slot.image exDecoded10)

theorem c10_witness :
    pyint (((0 : ℤ) : ℚ) / 2) - 1 = -1 ∧
      processChunkOct exState10 exImg10 =
        octImageStep exState10 (volumeKey 1 1 1) 0 exDecoded10 ∧
      octImageStep exState10 (volumeKey 1 1 1) 0 exDecoded10 =
        .ok ({ exState10 with volume_array_dict := alSet exState10.volume_array_dict (volumeKey 1 1 1) exSlots10, laterality_dict := bindLaterality exState10.laterality exState10.laterality_dict (volumeKey 1 1 1) }, false) :=
  c10_negative_index_wraps exState10 1 1 1 0 1 1 [64512] [Slot.placeholder] (Or.inl rfl)
    (by decide) (by decide) (by decide) (by decide)

theorem getD_replicate {α : Type} (n i : Nat) (a : α) :
    (List.replicate n a).getD i a = a := by
  induction n generalizing i with
  | zero => rfl
  | succ m ih =>
      cases i with
      | zero => rfl
      | succ j => exact ih j

theorem range_map_getD {α : Type} (l : List α) (d : α) :
    (List.range l.length).map (fun j => l.getD j d) = l := by
  apply List.ext_getElem
  · simp
  · intro n h1 h2
    simp only [List.getElem_map, List.getElem_range]
    rw [List.getD_eq_getElem l d h2]

/-- The position Python list assignment actually writes for index `i`
into a list of length `L`: a negative index has the length added once
(`pySet` then raises `IndexError` when the result is still out of
`[0, L)`). -/
def normIdx (L : Nat) (i : ℤ) : ℤ := if i < 0 then i + L else i

/-- The contour of the LAST decoded entry whose written position
(`normIdx` of its slice index) is `j`, if any: when several decoded
slice indices land on the same slot, the later write wins. -/
def lastAt (L : Nat) : PyDict ℤ Contour → ℤ → Option Contour
  | [], _ => none
  | (i, c) :: rest, j =>
      match lastAt L rest j with
      | some c' => some c'
      | none => if normIdx L i = j then some c else none

theorem writeContours_spec :
    ∀ (inner : PyDict ℤ Contour) (acc : List (Option Contour)),
      (∀ p ∈ inner, 0 ≤ normIdx acc.length p.1 ∧
        normIdx acc.length p.1 < (acc.length : ℤ)) →
      writeContours acc inner =
        .ok ((List.range acc.length).map fun (j : Nat) =>
          match lastAt acc.length inner ((j : Nat) : ℤ) with
          | some c => some c
          | none => acc.getD j none) := by
  intro inner
  induction inner with
  | nil =>
      intro acc hrange
      rw [writeContours]
      congr 1
      simp only [lastAt]
      exact (range_map_getD acc none).symm
  | cons p rest ih =>
      intro acc hrange
      obtain ⟨i, c⟩ := p
      obtain ⟨hi0, hilen⟩ := hrange (i, c) (List.mem_cons_self _ _)
      dsimp only at hi0 hilen
      have hps : pySet acc i (some c) =
          some (acc.set (normIdx acc.length i).toNat (some c)) := by
        by_cases hi : i < 0
        · have hn : normIdx acc.length i = i + acc.length := if_pos hi
          rw [hn] at hi0 hilen ⊢
          simp only [pySet]
          rw [if_pos hi, if_pos ⟨hi0, hilen⟩]
        · have hn : normIdx acc.length i = i := if_neg hi
          rw [hn] at hi0 hilen ⊢
          simp only [pySet]
          rw [if_neg hi, if_pos ⟨hi0, hilen⟩]
      rw [writeContours, hps]
      dsimp only
      rw [ih (acc.set (normIdx acc.length i).toNat (some c))
        (by
          intro p hp
          have := hrange p (List.mem_cons_of_mem _ hp)
          simpa [List.length_set] using this)]
      congr 1
      simp only [List.length_set]
      apply List.ext_getElem
      · simp
      · intro n h1 h2
        simp only [List.getElem_map, List.getElem_range]
        have hlt : n < acc.length := by simpa using h1
        rw [lastAt]
        cases hla : lastAt acc.length rest (n : ℤ) with
        | some c' => rfl
        | none =>
            dsimp only
            by_cases hin : normIdx acc.length i = (n : ℤ)
            · rw [if_pos hin]
              have htn : (normIdx acc.length i).toNat = n := by omega
              dsimp only
              rw [htn, List.getD_eq_getElem _ _ (by simpa using hlt)]
              rw [List.getElem_set_self]
            · rw [if_neg hin]
              dsimp only
              rw [List.getD_eq_getElem _ _ (by simpa using hlt),
                List.getD_eq_getElem _ _ hlt,
                List.getElem_set_ne (by omega)]

theorem assembleOneName_spec (L : Nat) (inner : PyDict ℤ Contour)
    (hrange : ∀ p ∈ inner, 0 ≤ normIdx L p.1 ∧ normIdx L p.1 < (L : ℤ)) :
    assembleOneName L inner =
      .ok ((List.range L).map fun (j : Nat) => lastAt L inner ((j : Nat) : ℤ)) := by
  rw [assembleOneName,
    writeContours_spec inner (List.replicate L none) (by simpa using hrange)]
  congr 1
  simp only [List.length_replicate]
  apply List.ext_getElem
  · simp
  · intro n h1 h2
    simp only [List.getElem_map, List.getElem_range]
    cases hr : lastAt L inner (n : ℤ) with
    | some c => rfl
    | none =>
        dsimp only
        rw [getD_replicate]

theorem assembleContours_get (vd : PyDict String ℚ) :
    ∀ (cd : PyDict String (PyDict String (PyDict ℤ Contour)))
      (out : PyDict String (PyDict String (List (Option Contour))))
      (k : String) (names : PyDict String (PyDict ℤ Contour)),
      assembleContours vd cd = .ok out → alGet cd k = some names →
      ∃ r, assembleOneVolume vd k names = .ok r ∧ alGet out k = some r := by
  intro cd
  induction cd with
  | nil => intro out k names _ hk; cases hk
  | cons p rest ih =>
      intro out k names hok hk
      obtain ⟨k0, cs⟩ := p
      rw [assembleContours] at hok
      cases h1 : assembleOneVolume vd k0 cs with
      | error e => rw [h1] at hok; cases hok
      | ok r0 =>
          rw [h1] at hok
          dsimp only at hok
          cases h2 : assembleContours vd rest with
          | error e => rw [h2] at hok; cases hok
          | ok out' =>
              rw [h2] at hok
              dsimp only at hok
              cases hok
              rw [alGet] at hk
              by_cases hkk : k0 = k
              · rw [if_pos hkk] at hk
                cases hk
                subst hkk
                exact ⟨r0, h1, by rw [alGet, if_pos rfl]⟩
              · rw [if_neg hkk] at hk
                obtain ⟨r, hr, hget⟩ := ih out' k names h2 hk
                exact ⟨r, hr, by rw [alGet, if_neg hkk]; exact hget⟩

theorem assembleOneVolume_get (vd : PyDict String ℚ) (k : String) :
    ∀ (names : PyDict String (PyDict ℤ Contour))
      (r : PyDict String (List (Option Contour)))
      (nm : String) (inner : PyDict ℤ Contour),
      assembleOneVolume vd k names = .ok r → alGet names nm = some inner →
      ∃ lst, assembleOneName (emittedLen vd k inner) inner = .ok lst ∧
        alGet r nm = some lst := by
  intro names
  induction names with
  | nil => intro r nm inner _ hnm; cases hnm
  | cons p rest ih =>
      intro r nm inner hok hnm
      obtain ⟨nm0, inner0⟩ := p
      rw [assembleOneVolume] at hok
      cases h1 : assembleOneName (emittedLen vd k inner0) inner0 with
      | error e => rw [h1] at hok; cases hok
      | ok lst0 =>
          rw [h1] at hok
          dsimp only at hok
          cases h2 : assembleOneVolume vd k rest with
          | error e => rw [h2] at hok; cases hok
          | ok r' =>
              rw [h2] at hok
              dsimp only at hok
              cases hok
              rw [alGet] at hnm
              by_cases hkk : nm0 = nm
              · rw [if_pos hkk] at hnm
                cases hnm
                subst hkk
                exact ⟨lst0, h1, by rw [alGet, if_pos rfl]⟩
              · rw [if_neg hkk] at hnm
                obtain ⟨lst, hl, hget⟩ := ih r' nm inner h2 hnm
                exact ⟨lst, hl, by rw [alGet, if_neg hkk]; exact hget⟩

/-- A contour chunk whose header ids declare volume `3_3_3`,
`slice_id = 2` (slice index 0), one float value `5`. -/
def exContourChunk : Chunk := ⟨3, 3, 3, 2, 0, 10019, .contourP 2 1 (some [5])⟩

/-- An OCT image chunk for the orphan volume `3_3_3`. -/
def exImgOrphan : Chunk := ⟨3, 3, 3, 2, 1, 1073741824, .imageP 1 1 [64512]⟩

/-- Sub-directory entries hosting the three chunks; their own ids all
declare `8_8_8` (max `slice_id / 2 = 0`), so `3_3_3` has no
sub-directory record. -/
def exSub8a : SubDirEntry := ⟨0, 100, 0, 8, 8, 8, 0⟩

def exSub8b : SubDirEntry := ⟨0, 200, 0, 8, 8, 8, 0⟩

def exSub8c : SubDirEntry := ⟨0, 300, 0, 8, 8, 8, 0⟩

/-- A file in which orphan volume `3_3_3` receives one image and one
contour at slice index 0. -/
def exFileOrphanContour : List (SubDirEntry × Chunk) :=
  [(exSub8a, exContourChunk), (exSub8b, exImgOrphan), (exSub8c, exPatChunk)]

/-- C8 counterexample: volume id `3_3_3` has no sub-directory record
and its only decoded contour sits at slice index 0, so the claim
demands a value sequence of length `0` (the maximum observed slice
index); the emitted sequence has length 1 — the number of decoded
entries (`len(v)`), not the maximum index. -/
theorem c8_counterexample :
    (read_oct_volume exFileOrphanContour).map
        (fun vols => vols.map fun v => v.contours.map
          (fun cs => (alGet cs "contour2").map List.length)) =
      .ok [some (some 1)] ∧ (1 : Nat) ≠ 0 :=
  ⟨by decide, by decide⟩

/-- C8 amended: for a volume id with attached contours, each contour
name's emitted sequence has length `int(volume_dict[id]) + 1` when the
id has a sub-directory record and that integer is nonzero, and
otherwise the NUMBER of decoded contour entries for that name (not the
maximum observed slice index); the sequence is pre-filled with absent
values and each decoded contour is written at its slice index by
Python list assignment: a negative index in `[-length, 0)` has the
length added once (so `slice_id` 0 or 1 writes the last slot), an
index out of range even after that wrap raises `IndexError` and aborts
the call, and when several decoded indices land on the same slot the
later-decoded contour wins (`lastAt`). -/
theorem c8_amended (vd : PyDict String ℚ)
    (cd : PyDict String (PyDict String (PyDict ℤ Contour)))
    (out : PyDict String (PyDict String (List (Option Contour))))
    (k nm : String) (names : PyDict String (PyDict ℤ Contour)) (inner : PyDict ℤ Contour)
    (hok : assembleContours vd cd = .ok out)
    (hk : alGet cd k = some names)
    (hnm : alGet names nm = some inner)
    (hrange : ∀ p ∈ inner, 0 ≤ normIdx (emittedLen vd k inner) p.1 ∧
        normIdx (emittedLen vd k inner) p.1 < (emittedLen vd k inner : ℤ)) :
    (alGet out k).bind (fun ns => alGet ns nm) =
      some ((List.range (emittedLen vd k inner)).map
        fun (j : Nat) => lastAt (emittedLen vd k inner) inner ((j : Nat) : ℤ)) := by
  obtain ⟨r, hr, hget⟩ := assembleContours_get vd cd out k names hok hk
  obtain ⟨lst, hl, hget2⟩ := assembleOneVolume_get vd k names r nm inner hr hnm
  rw [hget, Option.some_bind]
  rw [assembleOneName_spec _ _ hrange] at hl
  cases hl
  exact hget2

/-- The `volume_dict` of the C8 witness: volume `1_1_1` declared with
maximum `slice_id / 2 = 1`. -/
def exVdW : PyDict String ℚ := [("1_1_1", 1)]

/-- Two decoded contours for `contour2`: one from a chunk with
`slice_id` 0 (index `int(0/2) - 1 = -1`, wrapping to the last slot) and
one from a chunk with `slice_id` 2 (index 0). -/
def exInnerW : PyDict ℤ Contour := [((-1 : ℤ), [some 5]), ((0 : ℤ), [some 7])]

/-- The contour dictionary of the C8 witness. -/
def exCdW : PyDict String (PyDict String (PyDict ℤ Contour)) :=
  [("1_1_1", [("contour2", exInnerW)])]

/-- The assembled contour data of the C8 witness: the index `-1`
contour wrapped into slot 1 of the length-2 sequence. -/
def exContourOut : PyDict String (PyDict String (List (Option Contour))) :=
  [("1_1_1", [("contour2", [some [some 7], some [some 5]])])]

theorem c8_amended_witness :
    (alGet exContourOut "1_1_1").bind (fun ns => alGet ns "contour2") =
      some ((List.range (emittedLen exVdW "1_1_1" exInnerW)).map
        fun (j : Nat) => lastAt (emittedLen exVdW "1_1_1" exInnerW) exInnerW ((j : Nat) : ℤ)) :=
  c8_amended exVdW exCdW exContourOut "1_1_1" "contour2" [("contour2", exInnerW)] exInnerW
    (by decide) (by decide) (by decide) (by decide)
